import Mathlib

/-
Verification of the session registry, room index, broadcast and
handshake/upgrade orchestration of a socket.io-style server
(source: server.go of the golang-socketio package).

Go maps are embedded as association lists with first-match lookup;
insertion and erasure are extensionally the Go map operations.
Go sets (map to empty struct) are embedded as lists of members.
Channels are compared by identity (the Go pointer), embedded as a
numeric tag, so two distinct channels may carry the same session id,
as happens during a transport upgrade.
-/

set_option autoImplicit false

namespace GoSocketIO

universe u v

variable {K : Type u} {V : Type v}

/-- Embeds Go map lookup: `v, ok := m[k]` returns the first entry with key `k`. -/
def mlookup [DecidableEq K] : List (K × V) → K → Option V
  | [], _ => none
  | p :: rest, k => if k = p.1 then some p.2 else mlookup rest k

/-- Embeds Go map deletion `delete(m, k)`: removes every entry with key `k`. -/
def merase [DecidableEq K] (m : List (K × V)) (k : K) : List (K × V) :=
  m.filter (fun p => decide (p.1 ≠ k))

/-- Embeds Go map insertion `m[k] = v`: overwrites any previous entry for `k`. -/
def minsert [DecidableEq K] (m : List (K × V)) (k : K) (v : V) : List (K × V) :=
  (k, v) :: merase m k

theorem mlookup_merase [DecidableEq K] (m : List (K × V)) (k k' : K) :
    mlookup (merase m k) k' = if k' = k then none else mlookup m k' := by
  induction m with
  | nil => simp [merase, mlookup]
  | cons p rest ih =>
    by_cases hp : p.1 = k
    · have : merase (p :: rest) k = merase rest k := by
        simp [merase, List.filter, hp]
      rw [this, ih]
      by_cases hk : k' = k
      · simp [hk]
      · have hk1 : ¬ k' = p.1 := by rw [hp]; exact hk
        simp [hk, mlookup, hk1]
    · have : merase (p :: rest) k = p :: merase rest k := by
        simp [merase, List.filter, hp]
      rw [this]
      by_cases hk1 : k' = p.1
      · have hk : ¬ k' = k := by rw [hk1]; exact hp
        simp [mlookup, hk1, hk, hp]
      · simp [mlookup, hk1, ih]

theorem mlookup_minsert [DecidableEq K] (m : List (K × V)) (k : K) (v : V) (k' : K) :
    mlookup (minsert m k v) k' = if k' = k then some v else mlookup m k' := by
  unfold minsert
  by_cases hk : k' = k
  · simp [mlookup, hk]
  · simp [mlookup, hk, mlookup_merase]

theorem mlookup_some_mem [DecidableEq K] (m : List (K × V)) (k : K) (v : V)
    (h : mlookup m k = some v) : (k, v) ∈ m := by
  induction m with
  | nil => simp [mlookup] at h
  | cons p rest ih =>
    rw [mlookup] at h
    by_cases hk : k = p.1
    · simp [hk] at h
      have hpv : (k, v) = p := by
        obtain ⟨p1, p2⟩ := p
        simp at hk h
        simp [hk, h]
      rw [hpv]
      exact List.mem_cons_self p rest
    · simp [hk] at h
      exact List.mem_cons_of_mem p (ih h)

/-- Embeds the `connectionHeader` struct: session id, offered upgrade
targets, ping interval and ping timeout (milliseconds). -/
structure ConnHeader where
  Sid : String
  Upgrades : List String
  PingInterval : Nat
  PingTimeout : Nat
deriving DecidableEq, Repr

/-- Modelled from the spec: the Channel struct lives outside the verified
file. The spec gives it a stable session id (carried in the connection
header), a liveness flag, and identity separate from the id (the Go
pointer), embedded here as a numeric tag `ptr` so that two distinct
Channels may share one session id during an upgrade. -/
structure Chan where
  ptr : Nat
  connHeader : ConnHeader
  alive : Bool
deriving DecidableEq, Repr

/-- Modelled from the spec: `Channel.Id()` returns the session id assigned
at creation, which the spec places in the connection header. -/
def Chan.Id (c : Chan) : String := c.connHeader.Sid

/-- Modelled from the spec: `Channel.IsAlive()` reads the liveness flag. -/
def Chan.IsAlive (c : Chan) : Bool := c.alive

/-- Modelled from the spec: the protocol message types used by the open
handshake, an "open" frame and an "empty/noop" frame. -/
inductive MessageType where
  | MessageTypeOpen
  | MessageTypeEmpty
deriving DecidableEq, Repr

/-- Modelled from the spec: a protocol message, a kind plus a payload
string. Wire encoding (`protocol.MustEncode`) is an external codec and is
kept at the message level. -/
structure Message where
  type : MessageType
  args : String
deriving DecidableEq, Repr

/-- Embeds the three maps of the `Server` struct: `channels` (room name to
member set), `rooms` (channel to room-name set), `sids` (session id to
channel). Go sets are lists of members; Go maps are association lists. -/
structure ServerState where
  channels : List (String × List Chan)
  rooms : List (Chan × List String)
  sids : List (String × Chan)
deriving DecidableEq, Repr

/-- Embeds `NewServer`: all three maps start empty. -/
def NewServer : ServerState := ⟨[], [], []⟩

/-- Embeds the two error values of server.go. -/
inductive SErr where
  | serverNotSet
  | connectionNotFound
deriving DecidableEq, Repr

/-- Embeds `Server.GetChannel`: looks up the session id in `sids`,
returning the channel or `ErrorConnectionNotFound`. The returned state
component records that the lookup leaves the server state unchanged. -/
def GetChannel (st : ServerState) (sid : String) : Except SErr Chan × ServerState :=
  match mlookup st.sids sid with
  | none => (Except.error SErr.connectionNotFound, st)
  | some c => (Except.ok c, st)

/-- Embeds `Server.Amount`: the size of the member set of `room`, with the
Go convention that a missing key reads as an empty set. -/
def Amount (st : ServerState) (room : String) : Nat :=
  match mlookup st.channels room with
  | none => 0
  | some cs => cs.length

/-- Embeds `Server.List`: an empty slice for a missing room, otherwise a
copy of the member set; the copy loop writes each member once, so the
result carries exactly the members. -/
def ListRoom (st : ServerState) (room : String) : List Chan :=
  match mlookup st.channels room with
  | none => []
  | some cs => cs

/-- Embeds `Server.BroadcastTo`: for a missing room nothing happens;
otherwise every member whose `IsAlive()` is true gets an `Emit` of the
event and payload, returned here as the list of dispatched emissions. -/
def BroadcastTo {α : Type} (st : ServerState) (room method : String) (payload : α) :
    List (Chan × String × α) :=
  match mlookup st.channels room with
  | none => []
  | some cs => (cs.filter (fun c => c.IsAlive)).map (fun c => (c, method, payload))

/-- Embeds `onConnection`: registers the channel under its id in `sids`. -/
def onConnection (st : ServerState) (c : Chan) : ServerState :=
  { st with sids := minsert st.sids c.Id c }

/-- Embeds the body of the room loop of `onDisconnection` for one room:
remove `c` from the room's member set, and delete the room key when the
set becomes empty. -/
def removeFromRoom (m : List (String × List Chan)) (c : Chan) (room : String) :
    List (String × List Chan) :=
  match mlookup m room with
  | none => m
  | some cur =>
    let cur' := cur.filter (fun x => decide (x ≠ c))
    if cur' = [] then merase m room else minsert m room cur'

/-- Embeds `onDisconnection`: when `c` has a room set, remove `c` from
every room in it (pruning emptied rooms) and drop `c` from `rooms`; in
every case (the deferred delete) remove the `sids` entry for `c.Id()`
unconditionally. -/
def onDisconnection (st : ServerState) (c : Chan) : ServerState :=
  let st1 :=
    match mlookup st.rooms c with
    | none => st
    | some rs =>
      { st with
        channels := rs.foldl (fun m room => removeFromRoom m c room) st.channels
        rooms := merase st.rooms c }
  { st1 with sids := merase st1.sids c.Id }

/-- Embeds `Server.sendOpenSequence`: serialize the connection header
(`json.Marshal`, an external collaborator passed in as `marshal`); on
failure the code panics, embedded as `none` with nothing enqueued; on
success enqueue the open frame carrying the serialized header and then
the empty frame. -/
def sendOpenSequence (marshal : ConnHeader → Option String)
    (hdr : ConnHeader) (out : List Message) : Option (List Message) :=
  match marshal hdr with
  | none => none
  | some j =>
    some (out ++ [⟨MessageType.MessageTypeOpen, j⟩, ⟨MessageType.MessageTypeEmpty, ""⟩])

/-- Ping parameters of the transport (`conn.PingParams()`), an external
capability. -/
structure PingParams where
  interval : Nat
  timeout : Nat
deriving DecidableEq, Repr

/-- Embeds `Server.setupEventLoop`: build the fresh-connection header
(generated session id, upgrade target "websocket", ping parameters of the
transport), construct the channel, send the open sequence, then register
the channel (`onConnection` via the loop event). The session id generator
(md5 of address, time and randomness) is external nondeterminism, passed
in as `genSid`; `none` embeds the panic on serialization failure. -/
def setupEventLoop (marshal : ConnHeader → Option String) (st : ServerState)
    (pp : PingParams) (ptr : Nat) (genSid : String) :
    Option (ServerState × Chan × List Message) :=
  let hdr : ConnHeader := ⟨genSid, ["websocket"], pp.interval, pp.timeout⟩
  let c : Chan := ⟨ptr, hdr, true⟩
  match sendOpenSequence marshal hdr [] with
  | none => none
  | some out => some (onConnection st c, c, out)

/-- Steps of the upgrade orchestration, in the order
`setupUpgradeEventLoop` performs them; `recvUpgradeSignal c` embeds the
blocking receive from the new channel's one-shot `upgradedC`, and
`stubOld` embeds `cPolling.stub()`. -/
inductive UStep where
  | lookupFailed
  | startLoops (c : Chan)
  | register (c : Chan)
  | recvUpgradeSignal (c : Chan)
  | stubOld (old : Chan)
deriving DecidableEq, Repr

/-- Embeds `Server.setupUpgradeEventLoop`: look up the existing channel by
the supplied session id and abandon the attempt when it is missing;
otherwise build the upgrade header (same sid, no further upgrades, ping
parameters of the new transport), start the new channel's loops, register
it, block on its upgrade signal, and only then stub the old channel. The
returned trace lists the steps in execution order. -/
def setupUpgradeEventLoop (st : ServerState) (pp : PingParams) (ptr : Nat)
    (sid : String) : ServerState × List UStep :=
  match mlookup st.sids sid with
  | none => (st, [UStep.lookupFailed])
  | some cPolling =>
    let hdr : ConnHeader := ⟨sid, [], pp.interval, pp.timeout⟩
    let c : Chan := ⟨ptr, hdr, true⟩
    (onConnection st c,
      [UStep.startLoops c, UStep.register c, UStep.recvUpgradeSignal c,
        UStep.stubOld cPolling])

/-- Room-index consistency invariant of the spec: membership in
`channels` (membersOf) and `rooms` (roomsOf) agree in both directions,
and no room key holds an empty member set. -/
def RoomInv (st : ServerState) : Prop :=
  (∀ room cs c, mlookup st.channels room = some cs → c ∈ cs →
      ∃ rs, mlookup st.rooms c = some rs ∧ room ∈ rs) ∧
  (∀ c rs room, mlookup st.rooms c = some rs → room ∈ rs →
      ∃ cs, mlookup st.channels room = some cs ∧ c ∈ cs) ∧
  (∀ room cs, mlookup st.channels room = some cs → cs ≠ [])

/-- Registry coherence: every `sids` entry is keyed by its channel's own
session id, as `onConnection` establishes. -/
def SidInv (st : ServerState) : Prop :=
  ∀ k c, mlookup st.sids k = some c → c.Id = k

/-- Executable check implying `RoomInv`, used to discharge the invariant
on concrete states. -/
def roomInvCheck (st : ServerState) : Bool :=
  (st.channels.all (fun p =>
    (!p.2.isEmpty) &&
    p.2.all (fun c =>
      match mlookup st.rooms c with
      | some rs => rs.any (fun r => decide (r = p.1))
      | none => false))) &&
  (st.rooms.all (fun q =>
    q.2.all (fun room =>
      match mlookup st.channels room with
      | some cs => cs.any (fun x => decide (x = q.1))
      | none => false)))

theorem roomInvCheck_sound (st : ServerState) (h : roomInvCheck st = true) :
    RoomInv st := by
  unfold roomInvCheck at h
  rw [Bool.and_eq_true, List.all_eq_true, List.all_eq_true] at h
  obtain ⟨h1, h2⟩ := h
  refine ⟨?_, ?_, ?_⟩
  · intro room cs c hlook hc
    have hmem := mlookup_some_mem st.channels room cs hlook
    have := h1 (room, cs) hmem
    rw [Bool.and_eq_true, List.all_eq_true] at this
    have hcond := this.2 c hc
    revert hcond
    cases hrs : mlookup st.rooms c with
    | none => intro hcond; exact absurd hcond (by simp)
    | some rs =>
      intro hcond
      rw [List.any_eq_true] at hcond
      obtain ⟨r, hrmem, hr⟩ := hcond
      simp at hr
      exact ⟨rs, rfl, hr ▸ hrmem⟩
  · intro c rs room hlook hr
    have hmem := mlookup_some_mem st.rooms c rs hlook
    have := h2 (c, rs) hmem
    rw [List.all_eq_true] at this
    have hcond := this room hr
    revert hcond
    cases hcs : mlookup st.channels room with
    | none => intro hcond; exact absurd hcond (by simp)
    | some cs =>
      intro hcond
      rw [List.any_eq_true] at hcond
      obtain ⟨x, hxmem, hx⟩ := hcond
      simp at hx
      exact ⟨cs, rfl, hx ▸ hxmem⟩
  · intro room cs hlook
    have hmem := mlookup_some_mem st.channels room cs hlook
    have := h1 (room, cs) hmem
    rw [Bool.and_eq_true] at this
    intro hnil
    rw [hnil] at this
    simp [List.isEmpty] at this

/-- Executable check implying `SidInv`. -/
def sidInvCheck (st : ServerState) : Bool :=
  st.sids.all (fun p => decide (p.2.Id = p.1))

theorem sidInvCheck_sound (st : ServerState) (h : sidInvCheck st = true) :
    SidInv st := by
  unfold sidInvCheck at h
  rw [List.all_eq_true] at h
  intro k c hlook
  have := h (k, c) (mlookup_some_mem st.sids k c hlook)
  simpa using this

/-- Effect of one `removeFromRoom` pass on a lookup, described through
this abbreviation: erase the channel from the member set, pruning the
key when the set empties. -/
def remOne (c : Chan) : Option (List Chan) → Option (List Chan)
  | none => none
  | some cs =>
    let cs' := cs.filter (fun x => decide (x ≠ c))
    if cs' = [] then none else some cs'

theorem removeFromRoom_lookup (m : List (String × List Chan)) (c : Chan)
    (room room' : String) :
    mlookup (removeFromRoom m c room) room' =
      if room' = room then remOne c (mlookup m room) else mlookup m room' := by
  unfold removeFromRoom
  cases h : mlookup m room with
  | none =>
    by_cases hr : room' = room
    · simp [remOne, hr, h]
    · simp [remOne, hr]
  | some cur =>
    simp only []
    by_cases hemp : cur.filter (fun x => decide (x ≠ c)) = []
    · rw [if_pos hemp, mlookup_merase]
      by_cases hr : room' = room
      · rw [if_pos hr, if_pos hr]
        simp only [remOne]
        rw [if_pos hemp]
      · rw [if_neg hr, if_neg hr]
    · rw [if_neg hemp, mlookup_minsert]
      by_cases hr : room' = room
      · rw [if_pos hr, if_pos hr]
        simp only [remOne]
        rw [if_neg hemp]
      · rw [if_neg hr, if_neg hr]

theorem remOne_idem (c : Chan) (o : Option (List Chan)) :
    remOne c (remOne c o) = remOne c o := by
  cases o with
  | none => rfl
  | some cs =>
    have hff : (cs.filter (fun x => decide (x ≠ c))).filter
        (fun x => decide (x ≠ c)) = cs.filter (fun x => decide (x ≠ c)) := by
      simp [List.filter_filter]
    by_cases hemp : cs.filter (fun x => decide (x ≠ c)) = []
    · simp only [remOne]
      rw [if_pos hemp]
    · simp only [remOne]
      rw [if_neg hemp]
      simp only [remOne]
      rw [hff, if_neg hemp]

theorem foldRemove_lookup (rs : List String) (m : List (String × List Chan))
    (c : Chan) (room' : String) :
    mlookup (rs.foldl (fun acc room => removeFromRoom acc c room) m) room' =
      if room' ∈ rs then remOne c (mlookup m room') else mlookup m room' := by
  induction rs generalizing m with
  | nil => simp
  | cons r rest ih =>
    simp only [List.foldl_cons]
    rw [ih, removeFromRoom_lookup]
    by_cases h1 : room' ∈ rest <;> by_cases h2 : room' = r <;>
      simp [h1, h2, List.mem_cons, remOne_idem]

theorem onDisconnection_sids (st : ServerState) (c : Chan) :
    (onDisconnection st c).sids = merase st.sids c.Id := by
  unfold onDisconnection
  cases mlookup st.rooms c <;> rfl

theorem onDisconnection_none_fields (st : ServerState) (c : Chan)
    (h : mlookup st.rooms c = none) :
    (onDisconnection st c).channels = st.channels ∧
    (onDisconnection st c).rooms = st.rooms := by
  unfold onDisconnection
  rw [h]
  exact ⟨rfl, rfl⟩

theorem onDisconnection_channels_lookup (st : ServerState) (c : Chan)
    (rs : List String) (h : mlookup st.rooms c = some rs) (room' : String) :
    mlookup (onDisconnection st c).channels room' =
      if room' ∈ rs then remOne c (mlookup st.channels room')
      else mlookup st.channels room' := by
  unfold onDisconnection
  rw [h]
  exact foldRemove_lookup rs st.channels c room'

theorem onDisconnection_rooms_lookup (st : ServerState) (c : Chan)
    (rs : List String) (h : mlookup st.rooms c = some rs) (x : Chan) :
    mlookup (onDisconnection st c).rooms x =
      if x = c then none else mlookup st.rooms x := by
  unfold onDisconnection
  rw [h]
  exact mlookup_merase st.rooms c x

theorem mem_of_filter_ne_nil (cs : List Chan) (c : Chan) (hne : cs ≠ [])
    (hemp : cs.filter (fun x => decide (x ≠ c)) = []) : c ∈ cs := by
  cases cs with
  | nil => exact absurd rfl hne
  | cons a t =>
    have ha : a = c := by
      by_contra hac
      have hmem : a ∈ (a :: t).filter (fun x => decide (x ≠ c)) :=
        List.mem_filter.mpr ⟨List.mem_cons_self a t, by simp [hac]⟩
      rw [hemp] at hmem
      exact absurd hmem (List.not_mem_nil a)
    rw [← ha]
    exact List.mem_cons_self a t

/-- C9: teardown preserves the room-index consistency invariant: starting
from any state where `membersOf` and `roomsOf` agree in both directions
and no room key holds an empty member set, after `onDisconnection c` the
invariant holds again, `c` appears in neither map, and every room whose
members were only `c` has its key removed. -/
theorem teardown_room_invariant (st : ServerState) (c : Chan) (h : RoomInv st) :
    RoomInv (onDisconnection st c) ∧
    mlookup (onDisconnection st c).rooms c = none ∧
    (∀ room cs, mlookup (onDisconnection st c).channels room = some cs → c ∉ cs) ∧
    (∀ room cs, mlookup st.channels room = some cs →
      cs.filter (fun x => decide (x ≠ c)) = [] →
      mlookup (onDisconnection st c).channels room = none) := by
  obtain ⟨h1, h2, h3⟩ := h
  cases hrs : mlookup st.rooms c with
  | none =>
    obtain ⟨hch, hrm⟩ := onDisconnection_none_fields st c hrs
    have hno : ∀ room cs, mlookup st.channels room = some cs → c ∉ cs := by
      intro room cs hl hc
      obtain ⟨rs, hrs', _⟩ := h1 room cs c hl hc
      rw [hrs] at hrs'
      exact Option.noConfusion hrs'
    refine ⟨⟨?_, ?_, ?_⟩, ?_, ?_, ?_⟩
    · intro room cs x hl hx
      rw [hch] at hl
      rw [hrm]
      exact h1 room cs x hl hx
    · intro x rs room hl hr
      rw [hrm] at hl
      rw [hch]
      exact h2 x rs room hl hr
    · intro room cs hl
      rw [hch] at hl
      exact h3 room cs hl
    · rw [hrm]
      exact hrs
    · intro room cs hl
      rw [hch] at hl
      exact hno room cs hl
    · intro room cs hl hemp
      exact absurd (mem_of_filter_ne_nil cs c (h3 room cs hl) hemp) (hno room cs hl)
  | some rs =>
    have hch := onDisconnection_channels_lookup st c rs hrs
    have hrm := onDisconnection_rooms_lookup st c rs hrs
    have hsome : ∀ room' cs2,
        mlookup (onDisconnection st c).channels room' = some cs2 →
        ∃ cs, mlookup st.channels room' = some cs ∧
          ((room' ∈ rs ∧ cs2 = cs.filter (fun x => decide (x ≠ c)) ∧ cs2 ≠ []) ∨
            (room' ∉ rs ∧ cs2 = cs)) := by
      intro room' cs2 hl
      rw [hch room'] at hl
      by_cases hin : room' ∈ rs
      · rw [if_pos hin] at hl
        cases hcs : mlookup st.channels room' with
        | none =>
          rw [hcs] at hl
          simp only [remOne] at hl
          exact Option.noConfusion hl
        | some cs =>
          rw [hcs] at hl
          simp only [remOne] at hl
          by_cases hemp : cs.filter (fun x => decide (x ≠ c)) = []
          · rw [if_pos hemp] at hl
            exact Option.noConfusion hl
          · rw [if_neg hemp] at hl
            obtain rfl := (Option.some.inj hl).symm
            exact ⟨cs, rfl, Or.inl ⟨hin, rfl, hemp⟩⟩
      · rw [if_neg hin] at hl
        exact ⟨cs2, hl, Or.inr ⟨hin, rfl⟩⟩
    have hnotin : ∀ room' cs2,
        mlookup (onDisconnection st c).channels room' = some cs2 → c ∉ cs2 := by
      intro room' cs2 hl hc
      obtain ⟨cs, hcs, hcase⟩ := hsome room' cs2 hl
      cases hcase with
      | inl hin =>
        obtain ⟨_, heq, _⟩ := hin
        rw [heq] at hc
        have := (List.mem_filter.mp hc).2
        simp at this
      | inr hout =>
        obtain ⟨hnin, heq⟩ := hout
        rw [heq] at hc
        obtain ⟨rs', hrs', hroom⟩ := h1 room' cs c hcs hc
        rw [hrs] at hrs'
        obtain rfl := Option.some.inj hrs'
        exact hnin hroom
    refine ⟨⟨?_, ?_, ?_⟩, ?_, hnotin, ?_⟩
    · intro room' cs2 x hl hx
      obtain ⟨cs, hcs, hcase⟩ := hsome room' cs2 hl
      have hxc : x ≠ c := fun he => hnotin room' cs2 hl (he ▸ hx)
      have hxcs : x ∈ cs := by
        cases hcase with
        | inl hin =>
          obtain ⟨_, heq, _⟩ := hin
          rw [heq] at hx
          exact (List.mem_filter.mp hx).1
        | inr hout =>
          rw [hout.2] at hx
          exact hx
      obtain ⟨rsx, hrsx, hroomx⟩ := h1 room' cs x hcs hxcs
      refine ⟨rsx, ?_, hroomx⟩
      rw [hrm x, if_neg hxc]
      exact hrsx
    · intro x rs2 room' hl hr
      rw [hrm x] at hl
      by_cases hxc : x = c
      · rw [if_pos hxc] at hl
        exact Option.noConfusion hl
      · rw [if_neg hxc] at hl
        obtain ⟨cs, hcs, hxcs⟩ := h2 x rs2 room' hl hr
        rw [hch room']
        by_cases hin : room' ∈ rs
        · rw [if_pos hin, hcs]
          simp only [remOne]
          have hxfil : x ∈ cs.filter (fun y => decide (y ≠ c)) :=
            List.mem_filter.mpr ⟨hxcs, by simp [hxc]⟩
          have hnemp : cs.filter (fun y => decide (y ≠ c)) ≠ [] :=
            List.ne_nil_of_mem hxfil
          rw [if_neg hnemp]
          exact ⟨_, rfl, hxfil⟩
        · rw [if_neg hin]
          exact ⟨cs, hcs, hxcs⟩
    · intro room' cs2 hl
      obtain ⟨cs, hcs, hcase⟩ := hsome room' cs2 hl
      cases hcase with
      | inl hin => exact hin.2.2
      | inr hout => exact hout.2 ▸ h3 room' cs hcs
    · rw [hrm c, if_pos rfl]
    · intro room cs hl hemp
      have hcmem : c ∈ cs := mem_of_filter_ne_nil cs c (h3 room cs hl) hemp
      obtain ⟨rs', hrs', hroom⟩ := h1 room cs c hl hcmem
      rw [hrs] at hrs'
      obtain rfl := Option.some.inj hrs'
      rw [hch room, if_pos hroom, hl]
      simp only [remOne]
      rw [if_pos hemp]

/-- Polling-era channel with session id "X", as a fresh connection builds it. -/
def chA : Chan := ⟨0, ⟨"X", ["websocket"], 25000, 5000⟩, true⟩

/-- Upgraded channel with the same session id "X" and a new identity. -/
def chB : Chan := ⟨1, ⟨"X", [], 25000, 5000⟩, true⟩

/-- Channel whose liveness flag is off. -/
def chDead : Chan := ⟨2, ⟨"Y", ["websocket"], 25000, 5000⟩, false⟩

/-- State after registering id "X" with `chA` and then with `chB`. -/
def stAB : ServerState := onConnection (onConnection NewServer chA) chB

/-- State with one room "lobby" holding a live and a dead member. -/
def stRoom : ServerState :=
  ⟨[("lobby", [chA, chDead])], [(chA, ["lobby"]), (chDead, ["lobby"])],
    [("X", chA), ("Y", chDead)]⟩

/-- State with only `chA` registered. -/
def stX : ServerState := onConnection NewServer chA

/-- Ping parameters of the example transport. -/
def ppW : PingParams := ⟨25000, 5000⟩

/-- Serializer that always succeeds. -/
def marshalW : ConnHeader → Option String := fun h => some h.Sid

/-- Serializer that always fails. -/
def marshalFail : ConnHeader → Option String := fun _ => none

/-- Channel a fresh example connection constructs. -/
def freshC : Chan := ⟨2, ⟨"G", ["websocket"], 25000, 5000⟩, true⟩

/-- State after the fresh example connection registers. -/
def stFresh : ServerState := onConnection stX freshC

/-- Open sequence the fresh example connection enqueues. -/
def outFresh : List Message :=
  [⟨MessageType.MessageTypeOpen, "G"⟩, ⟨MessageType.MessageTypeEmpty, ""⟩]

/-- C1 counterexample: register session id "X" with channel A, then with
channel B (the upgrade overwrite), then run teardown for A. The registry
entry for "X" is gone and `GetChannel "X"` reports `ConnectionNotFound`
instead of still returning B, because `onDisconnection` deletes the
`sids` entry unconditionally rather than only when it still points at
the channel being torn down. -/
theorem teardown_superseded_counterexample :
    mlookup stAB.sids "X" = some chB ∧
    mlookup (onDisconnection stAB chA).sids "X" = none ∧
    (GetChannel (onDisconnection stAB chA) "X").1 =
      Except.error SErr.connectionNotFound ∧
    ∀ ch : Chan, (GetChannel (onDisconnection stAB chA) "X").1 ≠ Except.ok ch := by
  refine ⟨by decide, by decide, rfl, ?_⟩
  intro ch h
  rw [show (GetChannel (onDisconnection stAB chA) "X").1 =
    Except.error SErr.connectionNotFound from rfl] at h
  exact Except.noConfusion h

/-- C1 amended: teardown removes the session-id entry unconditionally;
for every state and channel, after `onDisconnection c` the registry has
no entry for `c.Id()` — even when the entry pointed at a newer channel —
and `GetChannel (c.Id())` returns `ConnectionNotFound`. -/
theorem teardown_removes_sid_unconditionally (st : ServerState) (c : Chan) :
    mlookup (onDisconnection st c).sids c.Id = none ∧
    (GetChannel (onDisconnection st c) c.Id).1 =
      Except.error SErr.connectionNotFound := by
  have h : mlookup (onDisconnection st c).sids c.Id = none := by
    rw [onDisconnection_sids, mlookup_merase, if_pos rfl]
  refine ⟨h, ?_⟩
  unfold GetChannel
  rw [h]

/-- C2: in every trace of the upgrade orchestration, a stub of the old
channel occurs only strictly after the receipt of the new channel's
one-shot upgrade signal. -/
theorem upgrade_stub_after_signal (st : ServerState) (pp : PingParams)
    (ptr : Nat) (sid : String) :
    ∀ i old,
      (setupUpgradeEventLoop st pp ptr sid).2.get? i = some (UStep.stubOld old) →
      ∃ j cNew, j < i ∧
        (setupUpgradeEventLoop st pp ptr sid).2.get? j =
          some (UStep.recvUpgradeSignal cNew) := by
  intro i old h
  cases hc : mlookup st.sids sid with
  | none =>
    simp only [setupUpgradeEventLoop, hc] at h
    match i, h with
    | 0, h => simp at h
    | n + 1, h => simp at h
  | some cP =>
    simp only [setupUpgradeEventLoop, hc] at h ⊢
    match i, h with
    | 0, h => simp at h
    | 1, h => simp at h
    | 2, h => simp at h
    | 3, h => exact ⟨2, _, by omega, rfl⟩
    | n + 4, h => simp at h

theorem upgrade_stub_after_signal_witness :
    (setupUpgradeEventLoop stX ppW 1 "X").2.get? 3 = some (UStep.stubOld chA) ∧
    ∃ j cNew, j < 3 ∧
      (setupUpgradeEventLoop stX ppW 1 "X").2.get? j =
        some (UStep.recvUpgradeSignal cNew) :=
  ⟨by decide, upgrade_stub_after_signal stX ppW 1 "X" 3 chA (by decide)⟩

/-- C3: `GetChannel` returns the registered channel exactly when an entry
for the session id exists, returns `ConnectionNotFound` exactly when none
exists, and leaves the server state unchanged. -/
theorem getChannel_spec (st : ServerState) (sid : String) :
    (GetChannel st sid).2 = st ∧
    (∀ c, (GetChannel st sid).1 = Except.ok c ↔ mlookup st.sids sid = some c) ∧
    ((GetChannel st sid).1 = Except.error SErr.connectionNotFound ↔
      mlookup st.sids sid = none) := by
  unfold GetChannel
  cases h : mlookup st.sids sid with
  | none => exact ⟨rfl, by simp, by simp⟩
  | some c0 => exact ⟨rfl, by simp, by simp⟩

theorem getChannel_spec_witness :
    (GetChannel stAB "X").1 = Except.ok chB ∧
    (GetChannel stAB "Z").1 = Except.error SErr.connectionNotFound :=
  ⟨((getChannel_spec stAB "X").2.1 chB).mpr (by decide),
    ((getChannel_spec stAB "Z").2.2).mpr (by decide)⟩

/-- C4: `BroadcastTo` dispatches an emission exactly to the members of
the room's set whose liveness flag is true, and a missing room yields no
emissions at all. -/
theorem broadcastTo_spec {α : Type} (st : ServerState) (room method : String)
    (payload : α) :
    (mlookup st.channels room = none → BroadcastTo st room method payload = []) ∧
    (∀ c : Chan, (c, method, payload) ∈ BroadcastTo st room method payload ↔
      ∃ cs, mlookup st.channels room = some cs ∧ c ∈ cs ∧ c.IsAlive = true) := by
  unfold BroadcastTo
  cases h : mlookup st.channels room with
  | none => exact ⟨fun _ => rfl, by simp⟩
  | some cs =>
    refine ⟨fun hh => Option.noConfusion hh, ?_⟩
    intro c
    constructor
    · intro hm
      obtain ⟨c', hc', heq⟩ := List.mem_map.mp hm
      obtain ⟨hmem, halive⟩ := List.mem_filter.mp hc'
      have hcc : c' = c := congrArg Prod.fst heq
      exact ⟨cs, rfl, hcc ▸ hmem, hcc ▸ halive⟩
    · rintro ⟨cs', hcs', hmem, halive⟩
      obtain rfl := Option.some.inj hcs'
      exact List.mem_map.mpr ⟨c, List.mem_filter.mpr ⟨hmem, halive⟩, rfl⟩

theorem broadcastTo_spec_witness :
    (chA, "chat", 7) ∈ BroadcastTo stRoom "lobby" "chat" (7 : Nat) ∧
    BroadcastTo stRoom "nowhere" "chat" (7 : Nat) = [] :=
  ⟨((broadcastTo_spec stRoom "lobby" "chat" (7 : Nat)).2 chA).mpr
      ⟨[chA, chDead], by decide, by decide, by decide⟩,
    (broadcastTo_spec stRoom "nowhere" "chat" (7 : Nat)).1 (by decide)⟩

/-- C5: when the connection header serializes successfully, the open
sequence enqueues exactly two frames, in order: the open frame carrying
the serialized header, then the empty frame. -/
theorem sendOpenSequence_frames (marshal : ConnHeader → Option String)
    (hdr : ConnHeader) (out : List Message) (j : String)
    (h : marshal hdr = some j) :
    sendOpenSequence marshal hdr out =
      some (out ++ [⟨MessageType.MessageTypeOpen, j⟩,
        ⟨MessageType.MessageTypeEmpty, ""⟩]) := by
  unfold sendOpenSequence
  rw [h]

theorem sendOpenSequence_frames_witness :
    marshalW ⟨"X", [], 25000, 5000⟩ = some "X" ∧
    sendOpenSequence marshalW ⟨"X", [], 25000, 5000⟩ [] =
      some [⟨MessageType.MessageTypeOpen, "X"⟩,
        ⟨MessageType.MessageTypeEmpty, ""⟩] :=
  ⟨rfl, sendOpenSequence_frames marshalW ⟨"X", [], 25000, 5000⟩ [] "X" rfl⟩

/-- C6: when header serialization fails the open sequence aborts fatally
with nothing enqueued (the panic, embedded as `none`); when it succeeds
no fatal abort occurs in that step. -/
theorem sendOpenSequence_failure (marshal : ConnHeader → Option String)
    (hdr : ConnHeader) (out : List Message) :
    (marshal hdr = none → sendOpenSequence marshal hdr out = none) ∧
    (∀ j, marshal hdr = some j →
      (sendOpenSequence marshal hdr out).isSome = true) := by
  unfold sendOpenSequence
  cases h : marshal hdr with
  | none => exact ⟨fun _ => rfl, fun j hj => Option.noConfusion hj⟩
  | some j0 => exact ⟨fun hh => Option.noConfusion hh, fun j hj => rfl⟩

theorem sendOpenSequence_failure_witness :
    sendOpenSequence marshalFail ⟨"X", [], 25000, 5000⟩ [] = none ∧
    (sendOpenSequence marshalW ⟨"X", [], 25000, 5000⟩ []).isSome = true :=
  ⟨(sendOpenSequence_failure marshalFail ⟨"X", [], 25000, 5000⟩ []).1 rfl,
    (sendOpenSequence_failure marshalW ⟨"X", [], 25000, 5000⟩ []).2 "X" rfl⟩

/-- C7: an upgrade request for a session id with no registered channel is
abandoned: the server state is returned unchanged and the trace holds
only the failed-lookup step — no channel is constructed, registered or
stubbed. -/
theorem upgrade_unknown_sid_noop (st : ServerState) (pp : PingParams)
    (ptr : Nat) (sid : String) (h : mlookup st.sids sid = none) :
    setupUpgradeEventLoop st pp ptr sid = (st, [UStep.lookupFailed]) := by
  unfold setupUpgradeEventLoop
  rw [h]

theorem upgrade_unknown_sid_noop_witness :
    mlookup NewServer.sids "Z" = none ∧
    setupUpgradeEventLoop NewServer ppW 5 "Z" = (NewServer, [UStep.lookupFailed]) :=
  ⟨rfl, upgrade_unknown_sid_noop NewServer ppW 5 "Z" rfl⟩

/-- C8: a successful upgrade registers a channel whose header carries
exactly the supplied session id, an empty upgrade-targets list and the
new transport's ping parameters; with the registry coherent that id is
the replaced channel's id; a fresh connection's header instead offers
"websocket" as the upgrade target. -/
theorem connHeader_construction (marshal : ConnHeader → Option String)
    (st st' : ServerState) (pp : PingParams) (ptr ptr' : Nat)
    (sid genSid : String) (cNew : Chan) (out : List Message) :
    (∀ c, UStep.register c ∈ (setupUpgradeEventLoop st pp ptr sid).2 →
      c.connHeader = ⟨sid, [], pp.interval, pp.timeout⟩) ∧
    (SidInv st → ∀ old, mlookup st.sids sid = some old → old.Id = sid) ∧
    (setupEventLoop marshal st pp ptr' genSid = some (st', cNew, out) →
      cNew.connHeader = ⟨genSid, ["websocket"], pp.interval, pp.timeout⟩) := by
  refine ⟨?_, fun hs old hl => hs sid old hl, ?_⟩
  · intro c hc
    cases h : mlookup st.sids sid with
    | none =>
      simp only [setupUpgradeEventLoop, h] at hc
      simp at hc
    | some cP =>
      simp only [setupUpgradeEventLoop, h] at hc
      simp at hc
      rw [hc]
  · intro hl
    simp only [setupEventLoop] at hl
    revert hl
    cases hm : sendOpenSequence marshal ⟨genSid, ["websocket"], pp.interval,
        pp.timeout⟩ [] with
    | none =>
      intro hl
      exact Option.noConfusion hl
    | some o =>
      intro hl
      have h21 : cNew =
          ⟨ptr', ⟨genSid, ["websocket"], pp.interval, pp.timeout⟩, true⟩ :=
        (congrArg (fun t => t.2.1) (Option.some.inj hl)).symm
      rw [h21]

theorem connHeader_construction_witness :
    chB.connHeader = ⟨"X", [], 25000, 5000⟩ ∧
    chA.Id = "X" ∧
    freshC.connHeader = ⟨"G", ["websocket"], 25000, 5000⟩ :=
  ⟨(connHeader_construction marshalW stX stFresh ppW 1 2 "X" "G" freshC
      outFresh).1 chB (by decide),
    (connHeader_construction marshalW stX stFresh ppW 1 2 "X" "G" freshC
      outFresh).2.1 (sidInvCheck_sound stX (by decide)) chA (by decide),
    (connHeader_construction marshalW stX stFresh ppW 1 2 "X" "G" freshC
      outFresh).2.2 (by decide)⟩

theorem teardown_room_invariant_witness :
    RoomInv stRoom ∧
    (RoomInv (onDisconnection stRoom chA) ∧
      mlookup (onDisconnection stRoom chA).rooms chA = none ∧
      (∀ room cs, mlookup (onDisconnection stRoom chA).channels room = some cs →
        chA ∉ cs) ∧
      (∀ room cs, mlookup stRoom.channels room = some cs →
        cs.filter (fun x => decide (x ≠ chA)) = [] →
        mlookup (onDisconnection stRoom chA).channels room = none)) :=
  have h : RoomInv stRoom := roomInvCheck_sound stRoom (by decide)
  ⟨h, teardown_room_invariant stRoom chA h⟩

/-- C10: for a room absent from the index, `Amount` is 0 and `List` is
the empty sequence; for a present room, `Amount` is the size of its
member set and `List` returns exactly its members. -/
theorem amount_list_spec (st : ServerState) (room : String) :
    (mlookup st.channels room = none →
      Amount st room = 0 ∧ ListRoom st room = []) ∧
    (∀ cs, mlookup st.channels room = some cs →
      Amount st room = cs.length ∧ ∀ c, c ∈ ListRoom st room ↔ c ∈ cs) := by
  unfold Amount ListRoom
  cases h : mlookup st.channels room with
  | none => exact ⟨fun _ => ⟨rfl, rfl⟩, fun cs hcs => Option.noConfusion hcs⟩
  | some cs0 =>
    refine ⟨fun hh => Option.noConfusion hh, ?_⟩
    intro cs hcs
    obtain rfl := Option.some.inj hcs
    exact ⟨rfl, fun c => Iff.rfl⟩

theorem amount_list_spec_witness :
    (Amount stRoom "nowhere" = 0 ∧ ListRoom stRoom "nowhere" = []) ∧
    (Amount stRoom "lobby" = 2 ∧
      (chA ∈ ListRoom stRoom "lobby" ↔ chA ∈ [chA, chDead])) :=
  ⟨(amount_list_spec stRoom "nowhere").1 (by decide),
    ⟨((amount_list_spec stRoom "lobby").2 [chA, chDead] (by decide)).1,
      ((amount_list_spec stRoom "lobby").2 [chA, chDead] (by decide)).2 chA⟩⟩

end GoSocketIO
